import Mathlib

/-!
Verification of the SSD prior-box generator (`modules/prior_box.py`).

The source is a single Python class `PriorBox`. Its constructor normalizes
the `aspect_ratios` argument (broadcasting a flat list to every feature-map
level, or asserting a per-level list has one entry per level), asserts that
`variance` has at least one strictly positive entry, and then runs `_priors`,
which walks every level, every grid cell in row-major order, and appends the
coordinates of each prior box to a flat list `mean`; the flat list is finally
reshaped into rows of four and optionally clamped into `[0, 1]`.

The embedding below is parametric in the ordered field `α` of coordinates
and in the square-root function `sq : α → α` (the Python code uses
`math.sqrt` on floats; none of the verified properties depends on the
meaning of the square root, so it stays abstract and every definition is
computable, e.g. at `α = ℚ`).  Python list indexing that can raise
`IndexError` is modelled by `pyGet` returning `Except String`; the dynamic
`Union[List[int], List[List[int]]]` type of `aspect_ratios` is modelled by
lists of `α ⊕ List α`, mirroring the source's
`any(isinstance(e, list) for e in ...)` dispatch.
-/

/-- Error message of a Python `IndexError` raised by out-of-range list
indexing, as in `scales[k + 1]` when `scales` is too short. -/
def idxMsg : String := "IndexError: list index out of range"

/-- Error message of the Python `TypeError` raised by `for ar in xs` when
`xs` is an `int` rather than a list. -/
def typeMsg : String := "TypeError: int object is not iterable"

/-- Error message of the constructor assertion
`assert len(self.aspect_ratios) == len(self.feature_maps)`. -/
def arAssertMsg : String := "AssertionError: len(aspect_ratios) == len(feature_maps)"

/-- Error message of the constructor assertion
`assert any(v > 0 for v in self.variance)`. -/
def varAssertMsg : String := "AssertionError: any(v > 0 for v in variance)"

/-- Python list indexing `l[n]` for nonnegative `n`: the element when in
range, an `IndexError` otherwise. -/
def pyGet {β : Type*} (l : List β) (n : Nat) : Except String β :=
  match l.get? n with
  | some x => Except.ok x
  | none => Except.error idxMsg

/-- The dynamic type of the `aspect_ratios` argument
(`Union[List[int], List[List[int]]]`): a list whose entries are numbers or
lists of numbers. -/
abbrev ARs (α : Type*) := List (α ⊕ List α)

/-- The numeric entries of an aspect-ratio list; on an all-number list this
is the list itself (used for the broadcast branch of the constructor). -/
def flatVals {α : Type*} (ar : ARs α) : List α :=
  ar.filterMap (fun e => match e with | Sum.inl a => some a | Sum.inr _ => none)

/-- One flat chunk of coordinates a single grid cell contributes to `mean`
in `PriorBox._priors`: centre `(cx, cy)` from the cell indices, the base
square box at `scales[k]`, the optional extra square box at
`sqrt(scales[k] * scales[k+1])`, and a wide/tall pair per aspect ratio.
Failures are the Python `IndexError` of `scales[k]` / `scales[k+1]` /
`aspect_ratios[k]` and the `TypeError` of iterating a number. -/
def cellMean {α : Type*} [LinearOrderedField α] (sq : α → α) (scales : List α)
    (ars : ARs α) (extra : Bool) (k f i j : Nat) : Except String (List α) :=
  let cx : α := ((j : α) + 1 / 2) / (f : α)
  let cy : α := ((i : α) + 1 / 2) / (f : α)
  match pyGet scales k with
  | Except.error e => Except.error e
  | Except.ok sk =>
    match (if extra then
        match pyGet scales (k + 1) with
        | Except.error e => Except.error e
        | Except.ok sk1 => Except.ok [cx, cy, sq (sk * sk1), sq (sk * sk1)]
      else Except.ok []) with
    | Except.error e => Except.error e
    | Except.ok extraPart =>
      match pyGet ars k with
      | Except.error e => Except.error e
      | Except.ok (Sum.inl _) => Except.error typeMsg
      | Except.ok (Sum.inr rs) =>
        Except.ok ([cx, cy, sk, sk] ++ extraPart ++
          rs.flatMap (fun ar =>
            [cx, cy, sk * sq ar, sk / sq ar, cx, cy, sk / sq ar, sk * sq ar]))

/-- The cells of an `f × f` grid in the order `itertools.product(range(f),
repeat=2)` visits them: row-major, outer loop over `i`, inner over `j`. -/
def gridCells (f : Nat) : List (Nat × Nat) :=
  (List.range f).flatMap (fun i => (List.range f).map (fun j => (i, j)))

/-- The flat coordinates contributed by a list of cells of level `k`
(the inner `for i, j in product(range(f), repeat=2)` loop), concatenated in
order; the first failing cell aborts the whole computation. -/
def meanCells {α : Type*} [LinearOrderedField α] (sq : α → α) (scales : List α)
    (ars : ARs α) (extra : Bool) (k f : Nat) :
    List (Nat × Nat) → Except String (List α)
  | [] => Except.ok []
  | c :: rest =>
    match cellMean sq scales ars extra k f c.1 c.2 with
    | Except.error e => Except.error e
    | Except.ok cur =>
      match meanCells sq scales ars extra k f rest with
      | Except.error e => Except.error e
      | Except.ok more => Except.ok (cur ++ more)

/-- The flat coordinate list `mean` built by the outer
`for k, f in enumerate(self.feature_maps)` loop, starting at level index
`k`; levels are processed in order and the first failure aborts. -/
def meanLevels {α : Type*} [LinearOrderedField α] (sq : α → α) (scales : List α)
    (ars : ARs α) (extra : Bool) : Nat → List Nat → Except String (List α)
  | _, [] => Except.ok []
  | k, f :: rest =>
    match meanCells sq scales ars extra k f (gridCells f) with
    | Except.error e => Except.error e
    | Except.ok cur =>
      match meanLevels sq scales ars extra (k + 1) rest with
      | Except.error e => Except.error e
      | Except.ok more => Except.ok (cur ++ more)

/-- `torch.Tensor(mean).view(-1, 4)`: the flat list regrouped into rows of
four coordinates. -/
def chunk4 {β : Type*} : List β → List (List β)
  | a :: b :: c :: d :: t => [a, b, c, d] :: chunk4 t
  | _ => []

/-- `clamp_(max=1, min=0)` on one coordinate. -/
def clamp01 {α : Type*} [LinearOrderedField α] (x : α) : α := min 1 (max 0 x)

/-- The whole of `PriorBox._priors` on already-normalized configuration
fields: build `mean`, reshape to rows of four, and clamp every coordinate
into `[0, 1]` when `clip` is set. -/
def priorsOutput {α : Type*} [LinearOrderedField α] (sq : α → α) (fm : List Nat)
    (scales : List α) (ars : ARs α) (extra clip : Bool) :
    Except String (List (List α)) :=
  match meanLevels sq scales ars extra 0 fm with
  | Except.error e => Except.error e
  | Except.ok m =>
    Except.ok (if clip then (chunk4 m).map (fun b => b.map clamp01) else chunk4 m)

/-- The state of a successfully constructed `PriorBox` object: the stored
configuration fields plus the generated `priors`. -/
structure PriorBox (α : Type*) where
  feature_maps : List Nat
  scales : List α
  aspect_ratios : ARs α
  extra_ar : Bool
  clip : Bool
  variance : List α
  priors : List (List α)

/-- Normalization of the `aspect_ratios` argument in `PriorBox.__init__`:
if any entry is a list, assert there is exactly one entry per feature-map
level and keep the argument; otherwise broadcast the flat list to every
level. -/
def normalizeAR {α : Type*} (numLevels : Nat) (ar : ARs α) : Except String (ARs α) :=
  if ar.any Sum.isRight then
    if ar.length = numLevels then Except.ok ar else Except.error arAssertMsg
  else
    Except.ok (List.replicate numLevels (Sum.inr (flatVals ar)))

/-- `PriorBox.__init__`: normalize `aspect_ratios`, assert that `variance`
has a strictly positive entry, then generate the priors; any assertion
failure or generation failure aborts construction with no output. -/
def PriorBox.init {α : Type*} [LinearOrderedField α] (sq : α → α)
    (feature_maps : List Nat) (scales : List α) (aspect_ratios : ARs α)
    (extra_ar clip : Bool) (variance : List α) : Except String (PriorBox α) :=
  match normalizeAR feature_maps.length aspect_ratios with
  | Except.error e => Except.error e
  | Except.ok ar =>
    if variance.any (fun v => decide (0 < v)) then
      match priorsOutput sq feature_maps scales ar extra_ar clip with
      | Except.error e => Except.error e
      | Except.ok pr =>
        Except.ok ⟨feature_maps, scales, ar, extra_ar, clip, variance, pr⟩
    else Except.error varAssertMsg

/-- The aspect-ratio list carried by one entry of a normalized
`aspect_ratios` table (a bare number carries none; iterating it fails). -/
def arList {α : Type*} : α ⊕ List α → List α
  | Sum.inl _ => []
  | Sum.inr l => l

/-- Specification-side description of the boxes one cell emits, following
the spec's wording: the base square `(cx, cy, s_k, s_k)`; if
`extra_aspect_ratio` is set the square `(cx, cy, s', s')` with
`s' = sqrt(s_k * scales[k+1])`; then per aspect ratio the wide box
`(cx, cy, s_k*sqrt(ar), s_k/sqrt(ar))` followed by the tall box
`(cx, cy, s_k/sqrt(ar), s_k*sqrt(ar))`. -/
def specCellBoxes {α : Type*} [LinearOrderedField α] (sq : α → α)
    (sk snext : α) (ratios : List α) (extra : Bool) (cx cy : α) :
    List (List α) :=
  [[cx, cy, sk, sk]] ++
  (if extra then [[cx, cy, sq (sk * snext), sq (sk * snext)]] else []) ++
  ratios.flatMap (fun ar =>
    [[cx, cy, sk * sq ar, sk / sq ar], [cx, cy, sk / sq ar, sk * sq ar]])

/-- Specification-side description of the whole emitted box sequence from
level index `k` on: levels in index order, cells of each level in row-major
order, cell centres `cx = (j + 0.5)/f`, `cy = (i + 0.5)/f`, and per cell the
boxes of `specCellBoxes`. -/
def specBoxesFrom {α : Type*} [LinearOrderedField α] (sq : α → α)
    (scales : List α) (ars : ARs α) (extra : Bool) :
    Nat → List Nat → List (List α)
  | _, [] => []
  | k, f :: rest =>
    ((gridCells f).flatMap (fun ij =>
      specCellBoxes sq (scales.getD k 0) (scales.getD (k + 1) 0)
        (arList (ars.getD k (Sum.inr []))) extra
        (((ij.2 : α) + 1 / 2) / (f : α)) (((ij.1 : α) + 1 / 2) / (f : α)))) ++
    specBoxesFrom sq scales ars extra (k + 1) rest

/-- The box count one cell of a level contributes:
`1 (base) + (1 if extra_aspect_ratio else 0) + 2 × |aspect_ratios[k]|`. -/
def boxesPerCell {α : Type*} (extra : Bool) (a : α ⊕ List α) : Nat :=
  1 + (if extra then 1 else 0) + 2 * (arList a).length

/-- The spec's total box count from level index `k` on:
`Σ feature_maps[k]^2 × B_k`. -/
def countSpecFrom {α : Type*} (extra : Bool) (ars : ARs α) :
    Nat → List Nat → Nat
  | _, [] => 0
  | k, f :: rest =>
    f ^ 2 * boxesPerCell extra (ars.getD k (Sum.inr [])) +
      countSpecFrom extra ars (k + 1) rest

/-! ### Basic facts about the indexing and reshaping helpers -/

theorem pyGet_ok_iff {β : Type*} {l : List β} {n : Nat} {x : β} :
    pyGet l n = Except.ok x ↔ l.get? n = some x := by
  unfold pyGet
  cases hg : l.get? n <;> simp_all

theorem pyGet_error_msg {β : Type*} {l : List β} {n : Nat} {e : String}
    (h : pyGet l n = Except.error e) : e = idxMsg := by
  unfold pyGet at h
  split at h <;> simp_all

theorem getD_of_get? {β : Type*} {l : List β} {n : Nat} {x : β} (d : β)
    (h : l.get? n = some x) : l.getD n d = x := by
  induction l generalizing n with
  | nil => simp at h
  | cons a t ih =>
    cases n with
    | zero => simp_all [List.getD]
    | succ m => simpa [List.getD] using ih (List.get?_cons_succ .. ▸ h)

theorem length_eq_four {β : Type*} {l : List β} (h : l.length = 4) :
    ∃ a b c d, l = [a, b, c, d] := by
  rcases l with _ | ⟨a, _ | ⟨b, _ | ⟨c, _ | ⟨d, _ | ⟨e, t⟩⟩⟩⟩⟩ <;>
    simp [List.length] at h ⊢

theorem chunk4_nil {β : Type*} : chunk4 ([] : List β) = [] := rfl

theorem chunk4_cons4 {β : Type*} (a b c d : β) (t : List β) :
    chunk4 (a :: b :: c :: d :: t) = [a, b, c, d] :: chunk4 t := rfl

theorem chunk4_flatten {β : Type*} (bs : List (List β))
    (h : ∀ b ∈ bs, b.length = 4) :
    ∀ rest, chunk4 (bs.flatten ++ rest) = bs ++ chunk4 rest := by
  induction bs with
  | nil => simp
  | cons b bs ih =>
    intro rest
    obtain ⟨a1, a2, a3, a4, rfl⟩ := length_eq_four (h b (by simp))
    have := ih (fun b hb => h b (by simp [hb])) rest
    simp only [List.flatten_cons, List.append_assoc, List.cons_append,
      List.nil_append, chunk4_cons4]
    simpa using this

theorem chunk4_length {β : Type*} (bs : List (List β))
    (h : ∀ b ∈ bs, b.length = 4) : chunk4 bs.flatten = bs := by
  simpa [chunk4_nil] using chunk4_flatten bs h []

/-! ### Facts about clamping -/

theorem clamp01_nonneg {α : Type*} [LinearOrderedField α] (x : α) :
    0 ≤ clamp01 x := by
  unfold clamp01
  exact le_min zero_le_one (le_max_left 0 x)

theorem clamp01_le_one {α : Type*} [LinearOrderedField α] (x : α) :
    clamp01 x ≤ 1 := min_le_left 1 _

theorem clamp01_of_mem {α : Type*} [LinearOrderedField α] {x : α}
    (h0 : 0 ≤ x) (h1 : x ≤ 1) : clamp01 x = x := by
  unfold clamp01
  rw [max_eq_right h0, min_eq_right h1]

theorem clamp01_idem {α : Type*} [LinearOrderedField α] (x : α) :
    clamp01 (clamp01 x) = clamp01 x :=
  clamp01_of_mem (clamp01_nonneg x) (clamp01_le_one x)

/-! ### Facts about the grid-cell enumeration -/

theorem gridCells_length (f : Nat) : (gridCells f).length = f * f := by
  simp only [gridCells, List.length_flatMap, Function.comp_def, List.length_map,
    List.length_range]
  rw [List.map_const', List.length_range, List.sum_replicate, smul_eq_mul]

theorem gridCells_mem {f i j : Nat} :
    (i, j) ∈ gridCells f ↔ i < f ∧ j < f := by
  simp [gridCells]

theorem gridCells_pos {f : Nat} (h : 0 < f) :
    ∃ rest, gridCells f = (0, 0) :: rest := by
  cases f with
  | zero => omega
  | succ n =>
    refine ⟨((List.range (n + 1)).map (fun j => (0, j))).tail ++
      ((List.range n).map Nat.succ).flatMap
        (fun i => (List.range (n + 1)).map (fun j => (i, j))), ?_⟩
    simp [gridCells, List.range_succ_eq_map, List.flatMap_cons,
      List.range_succ_eq_map, List.flatMap_map]

/-! ### Per-cell characterization -/

theorem specCellBoxes_len4 {α : Type*} [LinearOrderedField α] (sq : α → α)
    (sk snext : α) (rs : List α) (extra : Bool) (cx cy : α) :
    ∀ b ∈ specCellBoxes sq sk snext rs extra cx cy, b.length = 4 := by
  intro b hb
  cases extra <;> simp [specCellBoxes] at hb <;>
    rcases hb with rfl | hb <;>
    first
      | rfl
      | (rcases hb with ⟨ar, _, rfl | rfl⟩ <;> rfl)
      | (rcases hb with rfl | ⟨ar, _, rfl | rfl⟩ <;> rfl)

theorem specCellBoxes_flatten {α : Type*} [LinearOrderedField α] (sq : α → α)
    (sk snext : α) (rs : List α) (extra : Bool) (cx cy : α) :
    (specCellBoxes sq sk snext rs extra cx cy).flatten =
      [cx, cy, sk, sk] ++
      (if extra then [cx, cy, sq (sk * snext), sq (sk * snext)] else []) ++
      rs.flatMap (fun ar =>
        [cx, cy, sk * sq ar, sk / sq ar, cx, cy, sk / sq ar, sk * sq ar]) := by
  induction rs with
  | nil => cases extra <;> simp [specCellBoxes]
  | cons r t ih =>
    cases extra <;> simp_all [specCellBoxes, List.flatMap_cons]

theorem cellMean_ok_elim {α : Type*} [LinearOrderedField α] {sq : α → α}
    {scales : List α} {ars : ARs α} {extra : Bool} {k f i j : Nat} {l : List α}
    (h : cellMean sq scales ars extra k f i j = Except.ok l) :
    ∃ sk rs, scales.get? k = some sk ∧ ars.get? k = some (Sum.inr rs) ∧
      (extra = true → ∃ s1, scales.get? (k + 1) = some s1) ∧
      ∀ rest, chunk4 (l ++ rest) =
        specCellBoxes sq sk (scales.getD (k + 1) 0) rs extra
          (((j : α) + 1 / 2) / (f : α)) (((i : α) + 1 / 2) / (f : α)) ++
          chunk4 rest := by
  unfold cellMean at h
  cases h1 : pyGet scales k with
  | error e => rw [h1] at h; simp at h
  | ok sk =>
    rw [h1] at h
    cases hx : extra with
    | false =>
      rw [hx] at h
      simp only [Bool.false_eq_true, if_false] at h
      cases h3 : pyGet ars k with
      | error e => rw [h3] at h; simp at h
      | ok entry =>
        rw [h3] at h
        cases entry with
        | inl a => simp at h
        | inr rs =>
          simp only [Except.ok.injEq] at h
          refine ⟨sk, rs, pyGet_ok_iff.mp h1, pyGet_ok_iff.mp h3,
            by simp, ?_⟩
          intro rest
          rw [← h]
          have hlen := specCellBoxes_len4 sq sk (scales.getD (k + 1) 0) rs false
            (((j : α) + 1 / 2) / (f : α)) (((i : α) + 1 / 2) / (f : α))
          have := chunk4_flatten _ hlen rest
          rw [specCellBoxes_flatten] at this
          simpa using this
    | true =>
      rw [hx] at h
      simp only [if_true] at h
      cases h2 : pyGet scales (k + 1) with
      | error e => rw [h2] at h; simp at h
      | ok sk1 =>
        rw [h2] at h
        cases h3 : pyGet ars k with
        | error e => rw [h3] at h; simp at h
        | ok entry =>
          rw [h3] at h
          cases entry with
          | inl a => simp at h
          | inr rs =>
            simp only [Except.ok.injEq] at h
            have hget1 : scales.get? (k + 1) = some sk1 := pyGet_ok_iff.mp h2
            have hD : scales.getD (k + 1) 0 = sk1 := getD_of_get? 0 hget1
            refine ⟨sk, rs, pyGet_ok_iff.mp h1, pyGet_ok_iff.mp h3,
              fun _ => ⟨sk1, hget1⟩, ?_⟩
            intro rest
            rw [← h, hD]
            have hlen := specCellBoxes_len4 sq sk sk1 rs true
              (((j : α) + 1 / 2) / (f : α)) (((i : α) + 1 / 2) / (f : α))
            have := chunk4_flatten _ hlen rest
            rw [specCellBoxes_flatten] at this
            simpa using this

theorem cellMean_ok_intro {α : Type*} [LinearOrderedField α] (sq : α → α)
    {scales : List α} {ars : ARs α} {k : Nat} (f i j : Nat) {sk : α}
    {rs : List α} (hsk : scales.get? k = some sk)
    (hrs : ars.get? k = some (Sum.inr rs)) :
    ∃ l, cellMean sq scales ars false k f i j = Except.ok l := by
  unfold cellMean
  rw [show pyGet scales k = Except.ok sk from pyGet_ok_iff.mpr hsk,
    show pyGet ars k = Except.ok (Sum.inr rs) from pyGet_ok_iff.mpr hrs]
  exact ⟨_, rfl⟩

theorem cellMean_error_msg {α : Type*} [LinearOrderedField α] {sq : α → α}
    {scales : List α} {ars : ARs α} {extra : Bool} {k f i j : Nat} {msg : String}
    (hars : ∀ e ∈ ars, e.isRight = true)
    (h : cellMean sq scales ars extra k f i j = Except.error msg) :
    msg = idxMsg := by
  unfold cellMean at h
  cases h1 : pyGet scales k with
  | error e =>
    rw [h1] at h
    simp only [Except.error.injEq] at h
    exact h ▸ pyGet_error_msg h1
  | ok sk =>
    rw [h1] at h
    cases hx : extra with
    | false =>
      rw [hx] at h
      simp only [Bool.false_eq_true, if_false] at h
      cases h3 : pyGet ars k with
      | error e =>
        rw [h3] at h
        simp only [Except.error.injEq] at h
        exact h ▸ pyGet_error_msg h3
      | ok entry =>
        rw [h3] at h
        cases entry with
        | inl a =>
          have := hars (Sum.inl a) (List.get?_mem (pyGet_ok_iff.mp h3))
          simp at this
        | inr rs => simp at h
    | true =>
      rw [hx] at h
      simp only [if_true] at h
      cases h2 : pyGet scales (k + 1) with
      | error e =>
        rw [h2] at h
        simp only [Except.error.injEq] at h
        exact h ▸ pyGet_error_msg h2
      | ok sk1 =>
        rw [h2] at h
        cases h3 : pyGet ars k with
        | error e =>
          rw [h3] at h
          simp only [Except.error.injEq] at h
          exact h ▸ pyGet_error_msg h3
        | ok entry =>
          rw [h3] at h
          cases entry with
          | inl a =>
            have := hars (Sum.inl a) (List.get?_mem (pyGet_ok_iff.mp h3))
            simp at this
          | inr rs => simp at h

/-! ### Per-level characterization -/

theorem meanCells_ok_chunk {α : Type*} [LinearOrderedField α] {sq : α → α}
    {scales : List α} {ars : ARs α} {extra : Bool} {k f : Nat}
    {cells : List (Nat × Nat)} {m : List α}
    (h : meanCells sq scales ars extra k f cells = Except.ok m) :
    ∀ rest, chunk4 (m ++ rest) =
      (cells.flatMap fun c =>
        specCellBoxes sq (scales.getD k 0) (scales.getD (k + 1) 0)
          (arList (ars.getD k (Sum.inr []))) extra
          (((c.2 : α) + 1 / 2) / (f : α)) (((c.1 : α) + 1 / 2) / (f : α))) ++
      chunk4 rest := by
  induction cells generalizing m with
  | nil =>
    unfold meanCells at h
    simp only [Except.ok.injEq] at h
    subst h
    simp
  | cons c cs ih =>
    unfold meanCells at h
    cases h1 : cellMean sq scales ars extra k f c.1 c.2 with
    | error e => rw [h1] at h; simp at h
    | ok cur =>
      rw [h1] at h
      cases h2 : meanCells sq scales ars extra k f cs with
      | error e => rw [h2] at h; simp at h
      | ok more =>
        rw [h2] at h
        simp only [Except.ok.injEq] at h
        subst h
        intro rest
        obtain ⟨sk, rs, hsk, hrs, _, hchunk⟩ := cellMean_ok_elim h1
        have hskD : scales.getD k 0 = sk := getD_of_get? 0 hsk
        have hrsD : arList (ars.getD k (Sum.inr [])) = rs := by
          rw [getD_of_get? (Sum.inr []) hrs]; rfl
        rw [List.append_assoc, hchunk (more ++ rest), ih h2 rest,
          List.flatMap_cons, hskD, hrsD, List.append_assoc]

theorem meanCells_error_msg {α : Type*} [LinearOrderedField α] {sq : α → α}
    {scales : List α} {ars : ARs α} {extra : Bool} {k f : Nat}
    {cells : List (Nat × Nat)} {msg : String}
    (hars : ∀ e ∈ ars, e.isRight = true)
    (h : meanCells sq scales ars extra k f cells = Except.error msg) :
    msg = idxMsg := by
  induction cells generalizing msg with
  | nil => unfold meanCells at h; simp at h
  | cons c cs ih =>
    unfold meanCells at h
    cases h1 : cellMean sq scales ars extra k f c.1 c.2 with
    | error e =>
      rw [h1] at h
      simp only [Except.error.injEq] at h
      exact h ▸ cellMean_error_msg hars h1
    | ok cur =>
      rw [h1] at h
      cases h2 : meanCells sq scales ars extra k f cs with
      | error e =>
        rw [h2] at h
        simp only [Except.error.injEq] at h
        exact h ▸ ih h2
      | ok more => rw [h2] at h; simp at h

theorem meanCells_ok_intro {α : Type*} [LinearOrderedField α] (sq : α → α)
    {scales : List α} {ars : ARs α} {k : Nat} (f : Nat) {sk : α} {rs : List α}
    (hsk : scales.get? k = some sk) (hrs : ars.get? k = some (Sum.inr rs)) :
    ∀ cells, ∃ m, meanCells sq scales ars false k f cells = Except.ok m := by
  intro cells
  induction cells with
  | nil => exact ⟨[], rfl⟩
  | cons c cs ih =>
    obtain ⟨cur, hcur⟩ := cellMean_ok_intro sq f c.1 c.2 hsk hrs
    obtain ⟨more, hmore⟩ := ih
    refine ⟨cur ++ more, ?_⟩
    unfold meanCells
    rw [hcur, hmore]

theorem meanCells_head_ok {α : Type*} [LinearOrderedField α] {sq : α → α}
    {scales : List α} {ars : ARs α} {extra : Bool} {k f : Nat}
    {c : Nat × Nat} {cs : List (Nat × Nat)} {m : List α}
    (h : meanCells sq scales ars extra k f (c :: cs) = Except.ok m) :
    ∃ cur, cellMean sq scales ars extra k f c.1 c.2 = Except.ok cur := by
  unfold meanCells at h
  cases h1 : cellMean sq scales ars extra k f c.1 c.2 with
  | error e => rw [h1] at h; simp at h
  | ok cur => exact ⟨cur, rfl⟩

/-! ### Whole-sequence characterization -/

theorem meanLevels_ok_chunk {α : Type*} [LinearOrderedField α] {sq : α → α}
    {scales : List α} {ars : ARs α} {extra : Bool} {fm : List Nat} {k : Nat}
    {m : List α} (h : meanLevels sq scales ars extra k fm = Except.ok m) :
    ∀ rest, chunk4 (m ++ rest) =
      specBoxesFrom sq scales ars extra k fm ++ chunk4 rest := by
  induction fm generalizing k m with
  | nil =>
    unfold meanLevels at h
    simp only [Except.ok.injEq] at h
    subst h
    simp [specBoxesFrom]
  | cons f rest ih =>
    unfold meanLevels at h
    cases h1 : meanCells sq scales ars extra k f (gridCells f) with
    | error e => rw [h1] at h; simp at h
    | ok cur =>
      rw [h1] at h
      cases h2 : meanLevels sq scales ars extra (k + 1) rest with
      | error e => rw [h2] at h; simp at h
      | ok more =>
        rw [h2] at h
        simp only [Except.ok.injEq] at h
        subst h
        intro tail
        rw [List.append_assoc, meanCells_ok_chunk h1 (more ++ tail),
          ih h2 tail]
        simp [specBoxesFrom, List.append_assoc]

theorem meanLevels_error_msg {α : Type*} [LinearOrderedField α] {sq : α → α}
    {scales : List α} {ars : ARs α} {extra : Bool} {fm : List Nat} {k : Nat}
    {msg : String} (hars : ∀ e ∈ ars, e.isRight = true)
    (h : meanLevels sq scales ars extra k fm = Except.error msg) :
    msg = idxMsg := by
  induction fm generalizing k msg with
  | nil => unfold meanLevels at h; simp at h
  | cons f rest ih =>
    unfold meanLevels at h
    cases h1 : meanCells sq scales ars extra k f (gridCells f) with
    | error e =>
      rw [h1] at h
      simp only [Except.error.injEq] at h
      exact h ▸ meanCells_error_msg hars h1
    | ok cur =>
      rw [h1] at h
      cases h2 : meanLevels sq scales ars extra (k + 1) rest with
      | error e =>
        rw [h2] at h
        simp only [Except.error.injEq] at h
        exact h ▸ ih h2
      | ok more => rw [h2] at h; simp at h

theorem meanLevels_ok_scales {α : Type*} [LinearOrderedField α] {sq : α → α}
    {scales : List α} {ars : ARs α} {fm : List Nat} {k : Nat} {m : List α}
    (h : meanLevels sq scales ars true k fm = Except.ok m) :
    ∀ idx f, fm.get? idx = some f → 0 < f → k + idx + 1 < scales.length := by
  induction fm generalizing k m with
  | nil => intro idx f hidx; simp at hidx
  | cons f0 rest ih =>
    unfold meanLevels at h
    cases h1 : meanCells sq scales ars true k f0 (gridCells f0) with
    | error e => rw [h1] at h; simp at h
    | ok cur =>
      rw [h1] at h
      cases h2 : meanLevels sq scales ars true (k + 1) rest with
      | error e => rw [h2] at h; simp at h
      | ok more =>
        intro idx f hidx hf
        cases idx with
        | zero =>
          simp only [List.get?_cons_zero, Option.some.injEq] at hidx
          subst hidx
          obtain ⟨cs, hcells⟩ := gridCells_pos hf
          rw [hcells] at h1
          obtain ⟨cur0, hcur0⟩ := meanCells_head_ok h1
          obtain ⟨sk, rs, _, _, hnext, _⟩ := cellMean_ok_elim hcur0
          obtain ⟨s1, hs1⟩ := hnext rfl
          obtain ⟨hlt, -⟩ := List.get?_eq_some.mp hs1
          omega
        | succ n =>
          simp only [List.get?_cons_succ] at hidx
          have := ih h2 n f hidx hf
          omega

theorem meanLevels_ok_intro {α : Type*} [LinearOrderedField α] (sq : α → α)
    {scales : List α} {ars : ARs α} {fm : List Nat} {k : Nat}
    (hsc : k + fm.length ≤ scales.length)
    (hlen : k + fm.length ≤ ars.length)
    (hars : ∀ e ∈ ars, e.isRight = true) :
    ∃ m, meanLevels sq scales ars false k fm = Except.ok m := by
  induction fm generalizing k with
  | nil => exact ⟨[], rfl⟩
  | cons f rest ih =>
    simp only [List.length_cons] at hsc hlen
    have hk : k < scales.length := by omega
    have hka : k < ars.length := by omega
    have hsk : scales.get? k = some (scales.get ⟨k, hk⟩) := List.get?_eq_get hk
    have hentry : ars.get? k = some (ars.get ⟨k, hka⟩) := List.get?_eq_get hka
    obtain ⟨rs, hrs⟩ : ∃ rs, ars.get? k = some (Sum.inr rs) := by
      have hmem := hars _ (List.get?_mem hentry)
      cases hsum : ars.get ⟨k, hka⟩ with
      | inl a => rw [hsum] at hmem; simp at hmem
      | inr rs => exact ⟨rs, by rw [hentry, hsum]⟩
    obtain ⟨cur, hcur⟩ := meanCells_ok_intro sq f hsk hrs (gridCells f)
    obtain ⟨more, hmore⟩ := ih (k := k + 1) (by omega) (by omega)
    refine ⟨cur ++ more, ?_⟩
    unfold meanLevels
    rw [hcur, hmore]

/-! ### Lengths and shapes of the specification-side sequence -/

theorem specCellBoxes_length {α : Type*} [LinearOrderedField α] (sq : α → α)
    (sk snext : α) (rs : List α) (extra : Bool) (cx cy : α) :
    (specCellBoxes sq sk snext rs extra cx cy).length =
      1 + (if extra then 1 else 0) + 2 * rs.length := by
  cases extra <;>
    simp only [specCellBoxes, List.length_append, List.length_cons,
      List.length_nil, List.length_flatMap, Function.comp_def, if_true,
      if_false, Bool.false_eq_true] <;>
    rw [List.map_const', List.sum_replicate, smul_eq_mul] <;>
    omega

theorem specBoxesFrom_length {α : Type*} [LinearOrderedField α] (sq : α → α)
    (scales : List α) (ars : ARs α) (extra : Bool) (k : Nat) (fm : List Nat) :
    (specBoxesFrom sq scales ars extra k fm).length =
      countSpecFrom extra ars k fm := by
  induction fm generalizing k with
  | nil => rfl
  | cons f rest ih =>
    simp only [specBoxesFrom, countSpecFrom, List.length_append, ih,
      List.length_flatMap, Function.comp_def, specCellBoxes_length]
    rw [List.map_const', gridCells_length, List.sum_replicate, smul_eq_mul]
    unfold boxesPerCell
    ring

theorem specCellBoxes_shape {α : Type*} [LinearOrderedField α] (sq : α → α)
    (sk snext : α) (rs : List α) (extra : Bool) (cx cy : α) :
    ∀ b ∈ specCellBoxes sq sk snext rs extra cx cy,
      ∃ w h, b = [cx, cy, w, h] := by
  intro b hb
  cases extra <;> simp [specCellBoxes] at hb <;>
    first
      | (rcases hb with rfl | ⟨ar, _, rfl | rfl⟩ <;> exact ⟨_, _, rfl⟩)
      | (rcases hb with rfl | rfl | ⟨ar, _, rfl | rfl⟩ <;> exact ⟨_, _, rfl⟩)

theorem specBoxesFrom_mem {α : Type*} [LinearOrderedField α] {sq : α → α}
    {scales : List α} {ars : ARs α} {extra : Bool} {k : Nat} {fm : List Nat}
    {b : List α} (hb : b ∈ specBoxesFrom sq scales ars extra k fm) :
    ∃ (f i j : Nat) (w h : α), i < f ∧ j < f ∧
      b = [((j : α) + 1 / 2) / (f : α), ((i : α) + 1 / 2) / (f : α), w, h] := by
  induction fm generalizing k with
  | nil => simp [specBoxesFrom] at hb
  | cons f rest ih =>
    simp only [specBoxesFrom, List.mem_append, List.mem_flatMap] at hb
    rcases hb with ⟨c, hc, hbc⟩ | hb
    · obtain ⟨i, j⟩ := c
      obtain ⟨hi, hj⟩ := gridCells_mem.mp hc
      obtain ⟨w, h, rfl⟩ := specCellBoxes_shape _ _ _ _ _ _ _ _ hbc
      exact ⟨f, i, j, w, h, hi, hj, rfl⟩
    · exact ih hb

/-! ### Constructor characterization -/

theorem normalizeAR_ok_length {α : Type*} {L : Nat} {ar ar2 : ARs α}
    (h : normalizeAR L ar = Except.ok ar2) : ar2.length = L := by
  unfold normalizeAR at h
  by_cases h1 : ar.any Sum.isRight = true
  · rw [if_pos h1] at h
    by_cases h2 : ar.length = L
    · rw [if_pos h2] at h
      simp only [Except.ok.injEq] at h
      subst h
      exact h2
    · rw [if_neg h2] at h; simp at h
  · rw [if_neg h1] at h
    simp only [Except.ok.injEq] at h
    subst h
    simp

theorem flatVals_map_inl {α : Type*} (xs : List α) :
    flatVals (xs.map Sum.inl) = xs := by
  induction xs with
  | nil => rfl
  | cons x t ih => simp [flatVals] at ih ⊢; exact ih

theorem init_ok_elim {α : Type*} [LinearOrderedField α] {sq : α → α}
    {fm : List Nat} {scales : List α} {ar : ARs α} {extra clip : Bool}
    {var : List α} {st : PriorBox α}
    (h : PriorBox.init sq fm scales ar extra clip var = Except.ok st) :
    ∃ ar2 m, normalizeAR fm.length ar = Except.ok ar2 ∧
      meanLevels sq scales ar2 extra 0 fm = Except.ok m ∧
      st = ⟨fm, scales, ar2, extra, clip, var,
        if clip then (chunk4 m).map (fun b => b.map clamp01)
        else chunk4 m⟩ := by
  unfold PriorBox.init at h
  cases h1 : normalizeAR fm.length ar with
  | error e => rw [h1] at h; simp at h
  | ok ar2 =>
    rw [h1] at h
    dsimp only at h
    by_cases h2 : var.any (fun v => decide (0 < v)) = true
    · rw [if_pos h2] at h
      cases h3 : priorsOutput sq fm scales ar2 extra clip with
      | error e => rw [h3] at h; simp at h
      | ok pr =>
        rw [h3] at h
        simp only [Except.ok.injEq] at h
        subst h
        unfold priorsOutput at h3
        cases h4 : meanLevels sq scales ar2 extra 0 fm with
        | error e => rw [h4] at h3; simp at h3
        | ok m =>
          rw [h4] at h3
          simp only [Except.ok.injEq] at h3
          exact ⟨ar2, m, rfl, h4, by rw [h3]⟩
    · rw [if_neg h2] at h; simp at h

/-! ### Classification of generation errors -/

theorem cellMean_error_cases {α : Type*} [LinearOrderedField α] {sq : α → α}
    {scales : List α} {ars : ARs α} {extra : Bool} {k f i j : Nat}
    {msg : String}
    (h : cellMean sq scales ars extra k f i j = Except.error msg) :
    msg = idxMsg ∨ msg = typeMsg := by
  unfold cellMean at h
  cases h1 : pyGet scales k with
  | error e =>
    rw [h1] at h
    simp only [Except.error.injEq] at h
    exact Or.inl (h ▸ pyGet_error_msg h1)
  | ok sk =>
    rw [h1] at h
    cases hx : extra with
    | false =>
      rw [hx] at h
      simp only [Bool.false_eq_true, if_false] at h
      cases h3 : pyGet ars k with
      | error e =>
        rw [h3] at h
        simp only [Except.error.injEq] at h
        exact Or.inl (h ▸ pyGet_error_msg h3)
      | ok entry =>
        rw [h3] at h
        cases entry with
        | inl a =>
          simp only [Except.error.injEq] at h
          exact Or.inr h.symm
        | inr rs => simp at h
    | true =>
      rw [hx] at h
      simp only [if_true] at h
      cases h2 : pyGet scales (k + 1) with
      | error e =>
        rw [h2] at h
        simp only [Except.error.injEq] at h
        exact Or.inl (h ▸ pyGet_error_msg h2)
      | ok sk1 =>
        rw [h2] at h
        cases h3 : pyGet ars k with
        | error e =>
          rw [h3] at h
          simp only [Except.error.injEq] at h
          exact Or.inl (h ▸ pyGet_error_msg h3)
        | ok entry =>
          rw [h3] at h
          cases entry with
          | inl a =>
            simp only [Except.error.injEq] at h
            exact Or.inr h.symm
          | inr rs => simp at h

theorem meanCells_error_cases {α : Type*} [LinearOrderedField α] {sq : α → α}
    {scales : List α} {ars : ARs α} {extra : Bool} {k f : Nat}
    {cells : List (Nat × Nat)} {msg : String}
    (h : meanCells sq scales ars extra k f cells = Except.error msg) :
    msg = idxMsg ∨ msg = typeMsg := by
  induction cells generalizing msg with
  | nil => unfold meanCells at h; simp at h
  | cons c cs ih =>
    unfold meanCells at h
    cases h1 : cellMean sq scales ars extra k f c.1 c.2 with
    | error e =>
      rw [h1] at h
      simp only [Except.error.injEq] at h
      exact h ▸ cellMean_error_cases h1
    | ok cur =>
      rw [h1] at h
      cases h2 : meanCells sq scales ars extra k f cs with
      | error e =>
        rw [h2] at h
        simp only [Except.error.injEq] at h
        exact h ▸ ih h2
      | ok more => rw [h2] at h; simp at h

theorem meanLevels_error_cases {α : Type*} [LinearOrderedField α] {sq : α → α}
    {scales : List α} {ars : ARs α} {extra : Bool} {fm : List Nat} {k : Nat}
    {msg : String}
    (h : meanLevels sq scales ars extra k fm = Except.error msg) :
    msg = idxMsg ∨ msg = typeMsg := by
  induction fm generalizing k msg with
  | nil => unfold meanLevels at h; simp at h
  | cons f rest ih =>
    unfold meanLevels at h
    cases h1 : meanCells sq scales ars extra k f (gridCells f) with
    | error e =>
      rw [h1] at h
      simp only [Except.error.injEq] at h
      exact h ▸ meanCells_error_cases h1
    | ok cur =>
      rw [h1] at h
      cases h2 : meanLevels sq scales ars extra (k + 1) rest with
      | error e =>
        rw [h2] at h
        simp only [Except.error.injEq] at h
        exact h ▸ ih h2
      | ok more => rw [h2] at h; simp at h

theorem normalizeAR_error_msg {α : Type*} {L : Nat} {ar : ARs α} {e : String}
    (h : normalizeAR L ar = Except.error e) : e = arAssertMsg := by
  unfold normalizeAR at h
  by_cases h1 : ar.any Sum.isRight = true
  · rw [if_pos h1] at h
    by_cases h2 : ar.length = L
    · rw [if_pos h2] at h; simp at h
    · rw [if_neg h2] at h
      simp only [Except.error.injEq] at h
      exact h.symm
  · rw [if_neg h1] at h; simp at h

/-! ### Evaluation of two tiny concrete configurations -/

theorem init_single {α : Type*} [LinearOrderedField α] (sq : α → α) (s0 : α)
    (var : List α) (hvar : var.any (fun v => decide (0 < v)) = true) :
    PriorBox.init sq [1] [s0] [] false false var =
      Except.ok ⟨[1], [s0], [Sum.inr []], false, false, var,
        [[1 / 2, 1 / 2, s0, s0]]⟩ := by
  have h1 : normalizeAR (α := α) [1].length [] = Except.ok [Sum.inr []] := by
    norm_num [normalizeAR, flatVals]
  have hm : meanLevels sq [s0] [Sum.inr []] false 0 [1] =
      Except.ok [1 / 2, 1 / 2, s0, s0] := by
    norm_num [meanLevels, meanCells, cellMean, gridCells, pyGet, List.range_succ]
  have h2 : priorsOutput sq [1] [s0] [Sum.inr []] false false =
      Except.ok [[1 / 2, 1 / 2, s0, s0]] := by
    unfold priorsOutput
    rw [hm]
    norm_num [chunk4]
  unfold PriorBox.init
  rw [h1]
  dsimp only
  rw [if_pos hvar, h2]

theorem init_grid2 {α : Type*} [LinearOrderedField α] (sq : α → α) (s0 : α) :
    PriorBox.init sq [2] [s0] [] false false [1] =
      Except.ok ⟨[2], [s0], [Sum.inr []], false, false, [1],
        [[1 / 4, 1 / 4, s0, s0], [3 / 4, 1 / 4, s0, s0],
         [1 / 4, 3 / 4, s0, s0], [3 / 4, 3 / 4, s0, s0]]⟩ := by
  have h1 : normalizeAR (α := α) [2].length [] = Except.ok [Sum.inr []] := by
    norm_num [normalizeAR, flatVals]
  have hm : meanLevels sq [s0] [Sum.inr []] false 0 [2] =
      Except.ok [1 / 4, 1 / 4, s0, s0, 3 / 4, 1 / 4, s0, s0,
        1 / 4, 3 / 4, s0, s0, 3 / 4, 3 / 4, s0, s0] := by
    norm_num [meanLevels, meanCells, cellMean, gridCells, pyGet, List.range_succ]
  have h2 : priorsOutput sq [2] [s0] [Sum.inr []] false false =
      Except.ok [[1 / 4, 1 / 4, s0, s0], [3 / 4, 1 / 4, s0, s0],
        [1 / 4, 3 / 4, s0, s0], [3 / 4, 3 / 4, s0, s0]] := by
    unfold priorsOutput
    rw [hm]
    norm_num [chunk4]
  unfold PriorBox.init
  rw [h1]
  dsimp only
  rw [if_pos (by simp : (([1] : List α).any fun v => decide (0 < v)) = true), h2]

/-! ### Bounds on cell centres -/

theorem center_bounds {α : Type*} [LinearOrderedField α] {i f : Nat}
    (h : i < f) :
    0 < ((i : α) + 1 / 2) / (f : α) ∧ ((i : α) + 1 / 2) / (f : α) < 1 := by
  have hf : (0 : α) < f := by
    exact_mod_cast Nat.lt_of_lt_of_le (Nat.zero_lt_succ i) h
  have hi0 : (0 : α) ≤ i := Nat.cast_nonneg i
  have hi1 : (i : α) + 1 ≤ f := by exact_mod_cast h
  constructor
  · apply div_pos _ hf
    linarith
  · rw [div_lt_one hf]
    linarith

/-! ### The claims -/

/-- C1: for every configuration on which generation succeeds, the number of
emitted prior boxes equals the sum over levels `k` of `feature_maps[k]^2`
times `B_k`, where `B_k = 1 (base square) + (1 if extra_aspect_ratio else 0)
+ 2 × |aspect_ratios[k]|`. -/
theorem claim_C1 {α : Type*} [LinearOrderedField α] {sq : α → α}
    {fm : List Nat} {scales : List α} {ar : ARs α} {extra clip : Bool}
    {var : List α} {st : PriorBox α}
    (h : PriorBox.init sq fm scales ar extra clip var = Except.ok st) :
    st.priors.length = countSpecFrom extra st.aspect_ratios 0 fm := by
  obtain ⟨ar2, m, hn, hm, rfl⟩ := init_ok_elim h
  have hchunk : chunk4 m = specBoxesFrom sq scales ar2 extra 0 fm := by
    simpa [chunk4_nil] using meanLevels_ok_chunk hm []
  show (if clip then (chunk4 m).map (fun b => b.map clamp01)
      else chunk4 m).length = countSpecFrom extra ar2 0 fm
  cases clip <;> simp [hchunk, specBoxesFrom_length]

/-- Witness for C1 at `feature_maps = [1]`, `scales = [1/2, 3/4]`, flat
aspect-ratio list `[2]`, `extra_aspect_ratio = true`, over `ℚ`: construction
succeeds with 4 boxes and the count formula gives
`1^2 × (1 + 1 + 2×1) = 4`. -/
theorem claim_C1_witness :
    PriorBox.init (id : ℚ → ℚ) [1] [1/2, 3/4] [Sum.inl 2] true false [1] =
      Except.ok ⟨[1], [1/2, 3/4], [Sum.inr [2]], true, false, [1],
        [[1/2, 1/2, 1/2, 1/2], [1/2, 1/2, 3/8, 3/8],
         [1/2, 1/2, 1, 1/4], [1/2, 1/2, 1/4, 1]]⟩ ∧
    (PriorBox.mk [1] [1/2, 3/4] [Sum.inr [2]] true false [1]
        [[1/2, 1/2, 1/2, 1/2], [1/2, 1/2, 3/8, 3/8],
         [1/2, 1/2, 1, 1/4], [1/2, 1/2, 1/4, 1]] : PriorBox ℚ).priors.length =
      countSpecFrom true [Sum.inr [(2 : ℚ)]] 0 [1] := by
  have h : PriorBox.init (id : ℚ → ℚ) [1] [1/2, 3/4] [Sum.inl 2] true false [1] =
      Except.ok ⟨[1], [1/2, 3/4], [Sum.inr [2]], true, false, [1],
        [[1/2, 1/2, 1/2, 1/2], [1/2, 1/2, 3/8, 3/8],
         [1/2, 1/2, 1, 1/4], [1/2, 1/2, 1/4, 1]]⟩ := by
    norm_num [PriorBox.init, normalizeAR, flatVals, priorsOutput, meanLevels,
      meanCells, cellMean, gridCells, pyGet, chunk4, List.range_succ,
      List.filterMap_cons, List.filterMap_nil]
  exact ⟨h, claim_C1 h⟩

/-- C2: for every level and cell, the boxes emitted for that cell, in order,
are: the base square `(cx, cy, s_k, s_k)`; then, if extra_aspect_ratio is
true, the square `(cx, cy, s', s')` with `s' = sqrt(s_k * scales[k+1])`;
then, per aspect ratio in the order given, the wide box followed by the
tall box — stated as: the unclipped output equals the spec-side sequence
`specBoxesFrom`, whose per-cell boxes are exactly that list. -/
theorem claim_C2 {α : Type*} [LinearOrderedField α] {sq : α → α}
    {fm : List Nat} {scales : List α} {ar : ARs α} {extra : Bool}
    {var : List α} {st : PriorBox α}
    (h : PriorBox.init sq fm scales ar extra false var = Except.ok st) :
    st.priors = specBoxesFrom sq scales st.aspect_ratios extra 0 fm := by
  obtain ⟨ar2, m, hn, hm, rfl⟩ := init_ok_elim h
  have hchunk : chunk4 m = specBoxesFrom sq scales ar2 extra 0 fm := by
    simpa [chunk4_nil] using meanLevels_ok_chunk hm []
  simpa using hchunk

/-- Witness for C2 at the C1 configuration over `ℚ`: the generated boxes
are the base square, the extra square, then the wide and tall boxes for
aspect ratio 2, matching `specBoxesFrom`. -/
theorem claim_C2_witness :
    PriorBox.init (id : ℚ → ℚ) [1] [1/2, 3/4] [Sum.inl 2] false false [1] =
      Except.ok ⟨[1], [1/2, 3/4], [Sum.inr [2]], false, false, [1],
        [[1/2, 1/2, 1/2, 1/2], [1/2, 1/2, 1, 1/4], [1/2, 1/2, 1/4, 1]]⟩ ∧
    (PriorBox.mk [1] [1/2, 3/4] [Sum.inr [2]] false false [1]
        [[1/2, 1/2, 1/2, 1/2], [1/2, 1/2, 1, 1/4],
         [1/2, 1/2, 1/4, 1]] : PriorBox ℚ).priors =
      specBoxesFrom id [1/2, 3/4] [Sum.inr [(2 : ℚ)]] false 0 [1] := by
  have h : PriorBox.init (id : ℚ → ℚ) [1] [1/2, 3/4] [Sum.inl 2] false false [1] =
      Except.ok ⟨[1], [1/2, 3/4], [Sum.inr [2]], false, false, [1],
        [[1/2, 1/2, 1/2, 1/2], [1/2, 1/2, 1, 1/4], [1/2, 1/2, 1/4, 1]]⟩ := by
    norm_num [PriorBox.init, normalizeAR, flatVals, priorsOutput, meanLevels,
      meanCells, cellMean, gridCells, pyGet, chunk4, List.range_succ,
      List.filterMap_cons, List.filterMap_nil]
  exact ⟨h, claim_C2 h⟩

/-- C3: levels are visited in index order and cells in row-major order
(outer loop over the row `i`, inner over the column `j`), with cell centres
`cx = (j + 0.5)/f`, `cy = (i + 0.5)/f` — stated as the refinement to the
spec-side sequence (whose cell enumeration `gridCells` is row-major by
construction), together with the explicit row-major cell list for `f = 2`
and the concrete `f = 2` output whose centres are `0.25` and `0.75`. -/
theorem claim_C3 {α : Type*} [LinearOrderedField α] (sq : α → α) :
    (∀ {fm : List Nat} {scales : List α} {ar : ARs α} {extra : Bool}
      {var : List α} {st : PriorBox α},
      PriorBox.init sq fm scales ar extra false var = Except.ok st →
      st.priors = specBoxesFrom sq scales st.aspect_ratios extra 0 fm) ∧
    gridCells 2 = [(0, 0), (0, 1), (1, 0), (1, 1)] ∧
    PriorBox.init (id : ℚ → ℚ) [2] [1/4] [] false false [1] =
      Except.ok ⟨[2], [1/4], [Sum.inr []], false, false, [1],
        [[1/4, 1/4, 1/4, 1/4], [3/4, 1/4, 1/4, 1/4],
         [1/4, 3/4, 1/4, 1/4], [3/4, 3/4, 1/4, 1/4]]⟩ := by
  refine ⟨?_, by rfl, ?_⟩
  · intro fm scales ar extra var st h
    obtain ⟨ar2, m, hn, hm, rfl⟩ := init_ok_elim h
    have hchunk : chunk4 m = specBoxesFrom sq scales ar2 extra 0 fm := by
      simpa [chunk4_nil] using meanLevels_ok_chunk hm []
    simpa using hchunk
  · have := init_grid2 (id : ℚ → ℚ) (1/4 : ℚ)
    norm_num at this ⊢
    exact this

/-- Witness for C3: its refinement component applied at a concrete `ℚ`
configuration with a `2 × 2` grid. -/
theorem claim_C3_witness :
    PriorBox.init (id : ℚ → ℚ) [2] [1/4] [] false false [1] =
      Except.ok ⟨[2], [1/4], [Sum.inr []], false, false, [1],
        [[1/4, 1/4, 1/4, 1/4], [3/4, 1/4, 1/4, 1/4],
         [1/4, 3/4, 1/4, 1/4], [3/4, 3/4, 1/4, 1/4]]⟩ ∧
    (PriorBox.mk [2] [1/4] [Sum.inr []] false false [1]
        [[1/4, 1/4, 1/4, 1/4], [3/4, 1/4, 1/4, 1/4],
         [1/4, 3/4, 1/4, 1/4], [3/4, 3/4, 1/4, 1/4]] : PriorBox ℚ).priors =
      specBoxesFrom id [1/4] [Sum.inr ([] : List ℚ)] false 0 [2] := by
  have h : PriorBox.init (id : ℚ → ℚ) [2] [1/4] [] false false [1] =
      Except.ok ⟨[2], [1/4], [Sum.inr []], false, false, [1],
        [[1/4, 1/4, 1/4, 1/4], [3/4, 1/4, 1/4, 1/4],
         [1/4, 3/4, 1/4, 1/4], [3/4, 3/4, 1/4, 1/4]]⟩ := by
    have := init_grid2 (id : ℚ → ℚ) (1/4 : ℚ)
    norm_num at this ⊢
    exact this
  exact ⟨h, (claim_C3 (id : ℚ → ℚ)).1 h⟩

/-- C4: if `extra_aspect_ratio` is true and `scales` has fewer than `L + 1`
entries (with `L ≥ 1` levels, all of positive grid size), generation fails
with the list-index error — it never silently wraps or defaults; if
`extra_aspect_ratio` is false, a `scales` sequence of exactly `L` entries
succeeds (so `scales[L]` is never accessed). Stated over the generation
function `priorsOutput` on a normalized aspect-ratio table (every entry a
list, one per level). -/
theorem claim_C4 {α : Type*} [LinearOrderedField α] (sq : α → α)
    (fm : List Nat) (scales : List α) (ars : ARs α) (clip : Bool)
    (hars : ∀ e ∈ ars, e.isRight = true) (hlen : fm.length ≤ ars.length) :
    (1 ≤ fm.length → (∀ f ∈ fm, 0 < f) → scales.length < fm.length + 1 →
      priorsOutput sq fm scales ars true clip = Except.error idxMsg) ∧
    (scales.length = fm.length →
      ∃ out, priorsOutput sq fm scales ars false clip = Except.ok out) := by
  constructor
  · intro hL hpos hsc
    cases hml : meanLevels sq scales ars true 0 fm with
    | ok m =>
      exfalso
      have hidx : fm.length - 1 < fm.length := by omega
      have hget : fm.get? (fm.length - 1) = some (fm.get ⟨fm.length - 1, hidx⟩) :=
        List.get?_eq_get hidx
      have hfpos : 0 < fm.get ⟨fm.length - 1, hidx⟩ :=
        hpos _ (List.get_mem fm _ hidx)
      have := meanLevels_ok_scales hml (fm.length - 1) _ hget hfpos
      omega
    | error e =>
      have he : e = idxMsg := meanLevels_error_msg hars hml
      unfold priorsOutput
      rw [hml, he]
  · intro hsc
    have hsc0 : 0 + fm.length ≤ scales.length := by omega
    have hlen0 : 0 + fm.length ≤ ars.length := by omega
    obtain ⟨m, hm⟩ := meanLevels_ok_intro sq hsc0 hlen0 hars
    refine ⟨if clip then (chunk4 m).map (fun b => b.map clamp01)
      else chunk4 m, ?_⟩
    unfold priorsOutput
    rw [hm]

/-- Witness for C4 over `ℚ` at one level of one cell: with
`scales = [1/2]` and `extra_aspect_ratio` true, generation raises the index
error; with `extra_aspect_ratio` false, the same one-entry `scales`
succeeds. -/
theorem claim_C4_witness :
    ((∀ e ∈ ([Sum.inr []] : ARs ℚ), e.isRight = true) ∧
      ([1] : List Nat).length ≤ ([Sum.inr []] : ARs ℚ).length ∧
      1 ≤ ([1] : List Nat).length ∧ (∀ f ∈ ([1] : List Nat), 0 < f) ∧
      ([(1 : ℚ)/2] : List ℚ).length < ([1] : List Nat).length + 1) ∧
    priorsOutput (id : ℚ → ℚ) [1] [1/2] [Sum.inr []] true false =
      Except.error idxMsg ∧
    (∃ out, priorsOutput (id : ℚ → ℚ) [1] [1/2] [Sum.inr []] false false =
      Except.ok out) := by
  have hars : ∀ e ∈ ([Sum.inr []] : ARs ℚ), e.isRight = true := by simp
  have hlen : ([1] : List Nat).length ≤ ([Sum.inr []] : ARs ℚ).length := by decide
  have h := claim_C4 (id : ℚ → ℚ) [1] [1/2] [Sum.inr []] false hars hlen
  exact ⟨⟨hars, hlen, by decide, by decide, by decide⟩,
    h.1 (by decide) (by decide) (by decide), h.2 (by decide)⟩

/-- C5: passing a flat aspect-ratio sequence produces exactly the same
constructed object (hence the same box sequence) as passing that sequence
repeated once per level as a list-of-lists of length `L`. -/
theorem claim_C5 {α : Type*} [LinearOrderedField α] (sq : α → α)
    (fm : List Nat) (scales : List α) (xs : List α) (extra clip : Bool)
    (var : List α) :
    PriorBox.init sq fm scales (xs.map Sum.inl) extra clip var =
      PriorBox.init sq fm scales
        (List.replicate fm.length (Sum.inr xs)) extra clip var := by
  have hL : ((xs.map Sum.inl : ARs α)).any Sum.isRight = false := by
    simp [List.any_map, Function.comp_def]
  have h : normalizeAR (α := α) fm.length (xs.map Sum.inl) =
      normalizeAR fm.length (List.replicate fm.length (Sum.inr xs)) := by
    cases hfm : fm.length with
    | zero => simp [normalizeAR, hL, flatVals_map_inl]
    | succ n =>
      have hR : ((List.replicate (n + 1) (Sum.inr xs) : ARs α)).any
          Sum.isRight = true := by
        simp [List.replicate_succ]
      simp [normalizeAR, hL, hR, flatVals_map_inl]
  unfold PriorBox.init
  rw [h]

/-- C6: when `clip` is true every coordinate of every emitted box lies in
`[0, 1]` (each coordinate clamped independently) and re-clamping the
clipped output leaves it unchanged; and with `clip` false some
configuration produces a coordinate strictly greater than 1. -/
theorem claim_C6 {α : Type*} [LinearOrderedField α] {sq : α → α}
    {fm : List Nat} {scales : List α} {ar : ARs α} {extra : Bool}
    {var : List α} {st : PriorBox α}
    (h : PriorBox.init sq fm scales ar extra true var = Except.ok st) :
    ((∀ b ∈ st.priors, ∀ c ∈ b, 0 ≤ c ∧ c ≤ 1) ∧
      st.priors.map (fun b => b.map clamp01) = st.priors) ∧
    ∃ st2 : PriorBox α, PriorBox.init sq [1] [3/2] [] false false [1] =
      Except.ok st2 ∧ ∃ b ∈ st2.priors, ∃ c ∈ b, 1 < c := by
  obtain ⟨ar2, m, hn, hm, rfl⟩ := init_ok_elim h
  refine ⟨⟨?_, ?_⟩, ?_⟩
  · intro b hb c hc
    simp only [if_true] at hb
    obtain ⟨b0, hb0, rfl⟩ := List.mem_map.mp hb
    obtain ⟨c0, hc0, rfl⟩ := List.mem_map.mp hc
    exact ⟨clamp01_nonneg c0, clamp01_le_one c0⟩
  · show ((if true then (chunk4 m).map (fun b => b.map clamp01)
        else chunk4 m).map (fun b => b.map clamp01)) = _
    simp [List.map_map, Function.comp_def, clamp01_idem]
  · refine ⟨⟨[1], [3/2], [Sum.inr []], false, false, [1],
      [[1/2, 1/2, 3/2, 3/2]]⟩, init_single sq (3/2) [1] (by simp), ?_⟩
    refine ⟨[1/2, 1/2, 3/2, 3/2], by simp, 3/2, by simp, by norm_num⟩

/-- Witness for C6 over `ℚ`: a clipped configuration with scale 2 whose
base box is clamped to width 1, on which all three parts of C6 hold. -/
theorem claim_C6_witness :
    PriorBox.init (id : ℚ → ℚ) [1] [2] [] false true [1] =
      Except.ok ⟨[1], [2], [Sum.inr []], false, true, [1],
        [[1/2, 1/2, 1, 1]]⟩ ∧
    ((∀ b ∈ (PriorBox.mk [1] [2] [Sum.inr []] false true [1]
        [[1/2, 1/2, 1, 1]] : PriorBox ℚ).priors, ∀ c ∈ b, 0 ≤ c ∧ c ≤ 1) ∧
      (PriorBox.mk [1] [2] [Sum.inr []] false true [1]
        [[1/2, 1/2, 1, 1]] : PriorBox ℚ).priors.map
          (fun b => b.map clamp01) =
        (PriorBox.mk [1] [2] [Sum.inr []] false true [1]
          [[1/2, 1/2, 1, 1]] : PriorBox ℚ).priors) ∧
    ∃ st2 : PriorBox ℚ, PriorBox.init (id : ℚ → ℚ) [1] [3/2] [] false false [1] =
      Except.ok st2 ∧ ∃ b ∈ st2.priors, ∃ c ∈ b, 1 < c := by
  have h : PriorBox.init (id : ℚ → ℚ) [1] [2] [] false true [1] =
      Except.ok ⟨[1], [2], [Sum.inr []], false, true, [1],
        [[1/2, 1/2, 1, 1]]⟩ := by
    norm_num [PriorBox.init, normalizeAR, flatVals, priorsOutput, meanLevels,
      meanCells, cellMean, gridCells, pyGet, chunk4, List.range_succ,
      List.filterMap_cons, List.filterMap_nil, clamp01]
  exact ⟨h, claim_C6 h⟩

/-- C7: an `aspect_ratios` argument recognized as a list-of-lists (some
entry is a list) whose length differs from the number of levels makes
construction fail immediately with the construction-time assertion error,
producing no box sequence. -/
theorem claim_C7 {α : Type*} [LinearOrderedField α] (sq : α → α)
    (fm : List Nat) (scales : List α) (ar : ARs α) (extra clip : Bool)
    (var : List α) (h1 : ar.any Sum.isRight = true)
    (h2 : ar.length ≠ fm.length) :
    PriorBox.init sq fm scales ar extra clip var =
      Except.error arAssertMsg := by
  unfold PriorBox.init normalizeAR
  rw [if_pos h1, if_neg h2]

/-- Witness for C7 over `ℚ`: a one-entry list-of-lists against an empty
level list fails with the assertion error. -/
theorem claim_C7_witness :
    ([Sum.inr []] : ARs ℚ).any Sum.isRight = true ∧
    ([Sum.inr []] : ARs ℚ).length ≠ ([] : List Nat).length ∧
    PriorBox.init (id : ℚ → ℚ) [] [] [Sum.inr []] false false [1] =
      Except.error arAssertMsg :=
  ⟨rfl, by decide,
    claim_C7 (id : ℚ → ℚ) [] [] [Sum.inr []] false false [1] rfl (by decide)⟩

/-- C8: construction fails when `variance` has no strictly positive entry,
and is never rejected by the variance check when at least one entry is
strictly positive — in particular a `variance` mixing one positive entry
with non-positive ones is accepted. -/
theorem claim_C8 {α : Type*} [LinearOrderedField α] (sq : α → α)
    (fm : List Nat) (scales : List α) (ar : ARs α) (extra clip : Bool)
    (var : List α) :
    ((∀ v ∈ var, ¬0 < v) →
      ∃ e, PriorBox.init sq fm scales ar extra clip var = Except.error e) ∧
    ((∃ v ∈ var, 0 < v) →
      PriorBox.init sq fm scales ar extra clip var ≠
        Except.error varAssertMsg) ∧
    (∃ st : PriorBox α,
      PriorBox.init sq [1] [1/2] [] false false [-1, 0, 1] = Except.ok st) := by
  refine ⟨?_, ?_, ?_⟩
  · intro hv
    unfold PriorBox.init
    cases h1 : normalizeAR fm.length ar with
    | error e => exact ⟨e, rfl⟩
    | ok ar2 =>
      have hany : (var.any fun v => decide (0 < v)) = false := by
        simp only [List.any_eq_false, decide_eq_true_eq]
        exact hv
      refine ⟨varAssertMsg, ?_⟩
      dsimp only
      rw [if_neg (by simp [hany])]
  · rintro ⟨v, hvmem, hvpos⟩ hcontra
    unfold PriorBox.init at hcontra
    cases h1 : normalizeAR fm.length ar with
    | error e =>
      rw [h1] at hcontra
      simp only [Except.error.injEq] at hcontra
      have he := normalizeAR_error_msg h1
      rw [he] at hcontra
      exact absurd hcontra (by decide)
    | ok ar2 =>
      rw [h1] at hcontra
      dsimp only at hcontra
      have hany : (var.any fun v => decide (0 < v)) = true := by
        rw [List.any_eq_true]
        exact ⟨v, hvmem, by simpa using hvpos⟩
      rw [if_pos hany] at hcontra
      cases h3 : priorsOutput sq fm scales ar2 extra clip with
      | error e =>
        rw [h3] at hcontra
        simp only [Except.error.injEq] at hcontra
        unfold priorsOutput at h3
        cases h4 : meanLevels sq scales ar2 extra 0 fm with
        | error e2 =>
          rw [h4] at h3
          simp only [Except.error.injEq] at h3
          rcases meanLevels_error_cases h4 with h5 | h5 <;>
            (rw [h3] at h5; rw [h5] at hcontra; exact absurd hcontra (by decide))
        | ok m2 => rw [h4] at h3; simp at h3
      | ok pr => rw [h3] at hcontra; simp at hcontra
  · refine ⟨_, init_single sq (1/2) [-1, 0, 1] ?_⟩
    simp only [List.any_cons, List.any_nil, Bool.or_eq_true, decide_eq_true_eq]
    exact Or.inr (Or.inr (Or.inl zero_lt_one))

/-- Witness for C8 over `ℚ`: the all-non-positive variance `[-1, 0]` is
rejected; the mixed variance `[-1, 0, 1]` is not rejected by the variance
check and indeed construction succeeds on it. -/
theorem claim_C8_witness :
    ((∀ v ∈ ([-1, 0] : List ℚ), ¬0 < v) ∧
      ∃ e, PriorBox.init (id : ℚ → ℚ) [1] [1/2] [] false false [-1, 0] =
        Except.error e) ∧
    ((∃ v ∈ ([-1, 0, 1] : List ℚ), 0 < v) ∧
      PriorBox.init (id : ℚ → ℚ) [1] [1/2] [] false false [-1, 0, 1] ≠
        Except.error varAssertMsg) ∧
    (∃ st : PriorBox ℚ,
      PriorBox.init (id : ℚ → ℚ) [1] [1/2] [] false false [-1, 0, 1] =
        Except.ok st) := by
  have hbad : ∀ v ∈ ([-1, 0] : List ℚ), ¬0 < v := by
    intro v hv
    simp only [List.mem_cons, List.mem_singleton, List.not_mem_nil,
      or_false] at hv
    rcases hv with rfl | rfl <;> norm_num
  have hgood : ∃ v ∈ ([-1, 0, 1] : List ℚ), 0 < v :=
    ⟨1, by simp, by norm_num⟩
  have h1 := claim_C8 (id : ℚ → ℚ) [1] [1/2] [] false false [-1, 0]
  have h2 := claim_C8 (id : ℚ → ℚ) [1] [1/2] [] false false [-1, 0, 1]
  exact ⟨⟨hbad, h1.1 hbad⟩, ⟨hgood, h2.2.1 hgood⟩, h2.2.2⟩

/-- C9: the generated box sequence does not depend on `variance`: two
configurations identical except for their variances that both construct
successfully generate equal box sequences. -/
theorem claim_C9 {α : Type*} [LinearOrderedField α] {sq : α → α}
    {fm : List Nat} {scales : List α} {ar : ARs α} {extra clip : Bool}
    {var1 var2 : List α} {st1 st2 : PriorBox α}
    (h1 : PriorBox.init sq fm scales ar extra clip var1 = Except.ok st1)
    (h2 : PriorBox.init sq fm scales ar extra clip var2 = Except.ok st2) :
    st1.priors = st2.priors := by
  obtain ⟨a1, m1, hn1, hm1, rfl⟩ := init_ok_elim h1
  obtain ⟨a2, m2, hn2, hm2, rfl⟩ := init_ok_elim h2
  rw [hn1] at hn2
  simp only [Except.ok.injEq] at hn2
  subst hn2
  rw [hm1] at hm2
  simp only [Except.ok.injEq] at hm2
  subst hm2
  rfl

/-- Witness for C9 over `ℚ`: the same geometry with variances `[1]` and
`[2]` produces identical box sequences. -/
theorem claim_C9_witness :
    PriorBox.init (id : ℚ → ℚ) [1] [1/2] [] false false [1] =
      Except.ok ⟨[1], [1/2], [Sum.inr []], false, false, [1],
        [[1/2, 1/2, 1/2, 1/2]]⟩ ∧
    PriorBox.init (id : ℚ → ℚ) [1] [1/2] [] false false [2] =
      Except.ok ⟨[1], [1/2], [Sum.inr []], false, false, [2],
        [[1/2, 1/2, 1/2, 1/2]]⟩ ∧
    (PriorBox.mk [1] [1/2] [Sum.inr []] false false [1]
        [[1/2, 1/2, 1/2, 1/2]] : PriorBox ℚ).priors =
      (PriorBox.mk [1] [1/2] [Sum.inr []] false false [2]
        [[1/2, 1/2, 1/2, 1/2]] : PriorBox ℚ).priors := by
  have h1 := init_single (id : ℚ → ℚ) ((1 : ℚ)/2) [1] (by simp)
  have h2 := init_single (id : ℚ → ℚ) ((1 : ℚ)/2) [2] (by simp)
  exact ⟨h1, h2, claim_C9 h1 h2⟩

/-- C10: on every successful configuration (with positive grid sizes), the
centre coordinates of every emitted box lie strictly inside `(0, 1)`,
whether `clip` is true or false. -/
theorem claim_C10 {α : Type*} [LinearOrderedField α] {sq : α → α}
    {fm : List Nat} {scales : List α} {ar : ARs α} {extra clip : Bool}
    {var : List α} {st : PriorBox α} (hpos : ∀ f ∈ fm, 0 < f)
    (h : PriorBox.init sq fm scales ar extra clip var = Except.ok st) :
    ∀ b ∈ st.priors, ∃ cx cy w ht, b = [cx, cy, w, ht] ∧
      0 < cx ∧ cx < 1 ∧ 0 < cy ∧ cy < 1 := by
  obtain ⟨ar2, m, hn, hm, rfl⟩ := init_ok_elim h
  have hchunk : chunk4 m = specBoxesFrom sq scales ar2 extra 0 fm := by
    simpa [chunk4_nil] using meanLevels_ok_chunk hm []
  intro b hb
  cases clip with
  | false =>
    simp only [Bool.false_eq_true, if_false] at hb
    rw [hchunk] at hb
    obtain ⟨f, i, j, w, ht, hi, hj, rfl⟩ := specBoxesFrom_mem hb
    obtain ⟨hx0, hx1⟩ := center_bounds (α := α) hj
    obtain ⟨hy0, hy1⟩ := center_bounds (α := α) hi
    exact ⟨_, _, w, ht, rfl, hx0, hx1, hy0, hy1⟩
  | true =>
    simp only [if_true] at hb
    rw [hchunk] at hb
    obtain ⟨b0, hb0, rfl⟩ := List.mem_map.mp hb
    obtain ⟨f, i, j, w, ht, hi, hj, rfl⟩ := specBoxesFrom_mem hb0
    obtain ⟨hx0, hx1⟩ := center_bounds (α := α) hj
    obtain ⟨hy0, hy1⟩ := center_bounds (α := α) hi
    have hcx : clamp01 (((j : α) + 1 / 2) / (f : α)) =
        ((j : α) + 1 / 2) / (f : α) := clamp01_of_mem hx0.le hx1.le
    have hcy : clamp01 (((i : α) + 1 / 2) / (f : α)) =
        ((i : α) + 1 / 2) / (f : α) := clamp01_of_mem hy0.le hy1.le
    refine ⟨clamp01 (((j : α) + 1 / 2) / (f : α)),
      clamp01 (((i : α) + 1 / 2) / (f : α)), clamp01 w, clamp01 ht,
      by simp, ?_, ?_, ?_, ?_⟩
    · rw [hcx]; exact hx0
    · rw [hcx]; exact hx1
    · rw [hcy]; exact hy0
    · rw [hcy]; exact hy1

/-- Witness for C10 over `ℚ`: on the `2 × 2` single-level configuration,
every emitted box has centre coordinates strictly inside `(0, 1)`. -/
theorem claim_C10_witness :
    (∀ f ∈ ([2] : List Nat), 0 < f) ∧
    PriorBox.init (id : ℚ → ℚ) [2] [1/4] [] false false [1] =
      Except.ok ⟨[2], [1/4], [Sum.inr []], false, false, [1],
        [[1/4, 1/4, 1/4, 1/4], [3/4, 1/4, 1/4, 1/4],
         [1/4, 3/4, 1/4, 1/4], [3/4, 3/4, 1/4, 1/4]]⟩ ∧
    ∀ b ∈ (PriorBox.mk [2] [1/4] [Sum.inr []] false false [1]
        [[1/4, 1/4, 1/4, 1/4], [3/4, 1/4, 1/4, 1/4],
         [1/4, 3/4, 1/4, 1/4], [3/4, 3/4, 1/4, 1/4]] : PriorBox ℚ).priors,
      ∃ cx cy w ht, b = [cx, cy, w, ht] ∧
        0 < cx ∧ cx < 1 ∧ 0 < cy ∧ cy < 1 := by
  have hpos : ∀ f ∈ ([2] : List Nat), 0 < f := by decide
  have h : PriorBox.init (id : ℚ → ℚ) [2] [1/4] [] false false [1] =
      Except.ok ⟨[2], [1/4], [Sum.inr []], false, false, [1],
        [[1/4, 1/4, 1/4, 1/4], [3/4, 1/4, 1/4, 1/4],
         [1/4, 3/4, 1/4, 1/4], [3/4, 3/4, 1/4, 1/4]]⟩ := by
    have := init_grid2 (id : ℚ → ℚ) (1/4 : ℚ)
    norm_num at this ⊢
    exact this
  exact ⟨hpos, h, claim_C10 hpos h⟩
